import Mathlib

/-!
Verification development for the git-hit-archive pipeline.

The TypeScript sources are shallowly embedded as Lean functions:

* SQLite rows of the `posts` table become the structure `Row`; the `Post`
  interface of `types.ts` becomes the structure `Post`.  The SQL REAL column
  `relevance_score` is modelled as `Option ℚ` (stored doubles are rationals,
  and only ordering and equality of stored values matter to the claims);
  nullable columns are `Option` types.
* The database is modelled as a map from the composite primary key
  `(id, source)` to an optional row.
* SQL `COALESCE(a, b)` becomes `coalesce a b`; the upsert statement of
  `db.ts` (`posts.upsert` and `posts.upsertMany` share one statement) becomes
  `mergeRow` (the ON CONFLICT DO UPDATE branch) and `insertRow` (the INSERT
  branch).  `inserted_at TEXT DEFAULT CURRENT_TIMESTAMP` is modelled by the
  explicit timestamp argument `now` given to the insert path.
* JavaScript string helpers used by the CLI parsing and the LLM client
  (`includes`, `split`, `startsWith`, `parseInt`) are modelled over character
  lists so that every definition evaluates inside the kernel.

The file is organised as one block of definitions (the embedding) followed
by one block of theorems (the claims and their supporting lemmas).
-/

namespace GitHitArchive

/-- SQL COALESCE on two nullable values: the first non-null operand. -/
def coalesce {α : Type} : Option α → Option α → Option α
  | some a, _ => some a
  | none, b => b

/-! ### The Post interface (src/types.ts) -/

/-- One ingested item, as handed to the record store (`Post` in types.ts).
Immutable origin facts are non-null; the LLM fields are optional. -/
structure Post where
  id : String
  source : String
  username : String
  name : String
  stars : ℤ
  description : String
  url : String
  created_at : String
  relevance_score : Option ℚ
  matched_interest : Option String
  summary : Option String
  relevance : Option String
  scored_at : Option String
  deriving DecidableEq

/-! ### The posts table (src/db.ts, schema in initSchema) -/

/-- One stored row of the `posts` table.  Columns added by migrations
(`enrich_attempts`, `sent_to_telegram_at`, `sent_to_slack_at`,
`summary_local`) are nullable; the code reads `enrich_attempts` through
`COALESCE(enrich_attempts, 0)`, so it is kept as `Option ℤ` here. -/
@[ext] structure Row where
  id : String
  source : String
  username : String
  name : String
  stars : ℤ
  description : Option String
  url : String
  created_at : String
  relevance_score : Option ℚ
  matched_interest : Option String
  summary : Option String
  relevance : Option String
  scored_at : Option String
  embedded_at : Option String
  enrich_attempts : Option ℤ
  inserted_at : Option String
  summary_local : Option String
  sent_to_telegram_at : Option String
  sent_to_slack_at : Option String
  deriving DecidableEq

/-- Character count of a nullable text value, as
`length(COALESCE(d, ''))` computes it in SQLite. -/
def dlen (d : Option String) : ℕ := (d.getD "").length

namespace posts

/-- The ON CONFLICT(id, source) DO UPDATE SET branch of the upsert statement
shared by `posts.upsert` and `posts.upsertMany`:

* `stars = excluded.stars`;
* `description` is replaced only by a strictly longer incoming description
  (`length(excluded.description) > length(COALESCE(posts.description, ''))`);
* the five mutable fields use `COALESCE(excluded.f, posts.f)`;
* every other column is left untouched. -/
def mergeRow (p : Post) (r : Row) : Row :=
  { r with
    stars := p.stars
    description :=
      if p.description.length > dlen r.description then some p.description
      else r.description
    relevance_score := coalesce p.relevance_score r.relevance_score
    matched_interest := coalesce p.matched_interest r.matched_interest
    summary := coalesce p.summary r.summary
    relevance := coalesce p.relevance r.relevance
    scored_at := coalesce p.scored_at r.scored_at }

/-- The INSERT branch of the upsert statement: the thirteen bound columns
come from the incoming post, `enrich_attempts` takes its schema default 0,
`inserted_at` takes CURRENT_TIMESTAMP (the `now` argument), and the
remaining columns are NULL. -/
def insertRow (p : Post) (now : String) : Row :=
  { id := p.id
    source := p.source
    username := p.username
    name := p.name
    stars := p.stars
    description := some p.description
    url := p.url
    created_at := p.created_at
    relevance_score := p.relevance_score
    matched_interest := p.matched_interest
    summary := p.summary
    relevance := p.relevance
    scored_at := p.scored_at
    embedded_at := none
    enrich_attempts := some 0
    inserted_at := some now
    summary_local := none
    sent_to_telegram_at := none
    sent_to_slack_at := none }

/-- The whole `posts` table, keyed by the composite primary key. -/
def State : Type := String × String → Option Row

/-- Running the upsert statement for one bound post against the table. -/
def upsertOne (now : String) (s : State) (p : Post) : State := fun k =>
  if k = (p.id, p.source) then
    some (match s (p.id, p.source) with
      | none => insertRow p now
      | some r => mergeRow p r)
  else s k

/-- `posts.upsertMany`: one transaction running the upsert statement for each
post of the batch in order.  `now` is the CURRENT_TIMESTAMP supplied to rows
inserted during this transaction. -/
def upsertMany (now : String) (s : State) (b : List Post) : State :=
  b.foldl (upsertOne now) s

/-- `posts.updateScore`: point update of `relevance_score`,
`matched_interest` and `scored_at` (the latter set to the current time,
passed here as `now`) for one key; a missing key updates nothing. -/
def updateScore (s : State) (id source : String) (score : ℚ)
    (matchedInterest : Option String) (now : String) : State := fun k =>
  if k = (id, source) then
    (s k).map fun r =>
      { r with
        relevance_score := some score
        matched_interest := matchedInterest
        scored_at := some now }
  else s k

/-- `posts.updateEnrichment`: point update of `summary` and `summary_local`
for one key, incrementing `enrich_attempts` through
`COALESCE(enrich_attempts, 0) + 1`; a missing key updates nothing. -/
def updateEnrichment (s : State) (id source : String) (summary : String)
    (summaryLocal : Option String) : State := fun k =>
  if k = (id, source) then
    (s k).map fun r =>
      { r with
        summary := some summary
        summary_local := summaryLocal
        enrich_attempts := some (r.enrich_attempts.getD 0 + 1) }
  else s k

/-- The WHERE clause of `posts.getUnenriched`:
`relevance_score >= minScore AND summary IS NULL AND
COALESCE(enrich_attempts, 0) < maxAttempts`.  A NULL `relevance_score`
fails the SQL comparison. -/
def enrichEligible (minScore : ℚ) (maxAttempts : ℤ) (r : Row) : Bool :=
  (match r.relevance_score with
    | some v => decide (minScore ≤ v)
    | none => false)
  && r.summary.isNone
  && decide (r.enrich_attempts.getD 0 < maxAttempts)

/-- The ORDER BY of `getUnenriched`: `relevance_score DESC, stars DESC`
(SQLite places NULL scores last in descending order). -/
def enrichOrder (a b : Row) : Bool :=
  match a.relevance_score, b.relevance_score with
  | some x, some y =>
      decide (y < x) || (decide (x = y) && decide (b.stars ≤ a.stars))
  | some _, none => true
  | none, some _ => false
  | none, none => decide (b.stars ≤ a.stars)

/-- `posts.getUnenriched` run over the rows of the table: filter by the
WHERE clause, sort by the ORDER BY, keep at most `limit` rows. -/
def getUnenriched (rows : List Row) (minScore : ℚ) (limit : ℕ)
    (maxAttempts : ℤ) : List Row :=
  ((rows.filter (enrichEligible minScore maxAttempts)).mergeSort enrichOrder).take limit

end posts

/-! ### Auxiliary decompositions of the upsert, used to reason per key -/

/-- Folding the conflict branch of the upsert over a list of posts that all
target one row. -/
def applyRows (r : Row) (ps : List Post) : Row :=
  ps.foldl (fun r p => posts.mergeRow p r) r

/-- One upsert step seen from a single key that the post targets. -/
def stepKey (now : String) (v : Option Row) (p : Post) : Option Row :=
  some (match v with
    | none => posts.insertRow p now
    | some r => posts.mergeRow p r)

/-- Folding upsert steps over the posts of a batch that target one key. -/
def applyKey (now : String) (v : Option Row) (ps : List Post) : Option Row :=
  ps.foldl (stepKey now) v

/-- The description part of the conflict branch in isolation. -/
def descStep (p : Post) (d : Option String) : Option String :=
  if p.description.length > dlen d then some p.description else d

/-- Folding the description updates of a post list. -/
def descFold (d : Option String) (ps : List Post) : Option String :=
  ps.foldl (fun d p => descStep p d) d

/-- Folding the COALESCE update of one mutable field, `g` extracting the
incoming value from a post. -/
def coalFold {α : Type} (g : Post → Option α) (x : Option α)
    (ps : List Post) : Option α :=
  ps.foldl (fun x p => coalesce (g p) x) x

/-- Folding the `stars = excluded.stars` update of a post list. -/
def starsFold (x : ℤ) (ps : List Post) : ℤ :=
  ps.foldl (fun _ p => p.stars) x

/-! ### Concrete records for the C1 counterexample -/

/-- Post used to seed the C1 counterexample: scored with 1. -/
def cexSeed : Post :=
  { id := "1", source := "github", username := "u", name := "repo"
    stars := 10, description := "d", url := "https://x", created_at := "2025-01-01"
    relevance_score := some 1, matched_interest := some "ml"
    summary := some "old summary", relevance := some "old why"
    scored_at := some "t0" }

/-- Post re-ingested over `cexSeed` with different non-null mutable fields. -/
def cexIncoming : Post :=
  { cexSeed with
    relevance_score := some 2, matched_interest := some "other"
    summary := some "new summary", relevance := some "new why"
    scored_at := some "t9" }

/-- The empty table. -/
def emptyState : posts.State := fun _ => none

/-- State holding exactly the seeded record. -/
def cexState : posts.State := posts.upsertMany "i0" emptyState [cexSeed]

/-! ### Checkpoint tracker (src/steps/2-fetch.ts, progress.json)

`FetchProgress.completedRanges` holds one entry per completed window; the
TypeScript field `end` is a Lean keyword and is called `stop` here. -/

/-- One entry of `completedRanges`: `language` is optional in the stored
JSON (entries written before the language column existed lack it). -/
structure RangeEntry where
  start : String
  stop : String
  count : ℤ
  language : Option String
  deriving DecidableEq

/-- The completeness test of `runFetch`:
`progress.completedRanges.some(r => r.start === range.start && r.end ===
range.end && (r.language ?? "python") === language)`. -/
def isCompleted (completedRanges : List RangeEntry)
    (startDate endDate language : String) : Bool :=
  completedRanges.any fun r =>
    r.start == startDate && r.stop == endDate &&
      (r.language.getD "python") == language

/-- Arguments of one `markComplete` call (the object pushed onto
`completedRanges` after a window is fetched; `runFetch` always sets the
language). -/
structure Mark where
  start : String
  stop : String
  count : ℤ
  language : String
  deriving DecidableEq

/-- `progress.completedRanges.push({start, end, count, language})`. -/
def markComplete (p : List RangeEntry) (m : Mark) : List RangeEntry :=
  p ++ [{ start := m.start, stop := m.stop, count := m.count,
          language := some m.language }]

/-- The entry a mark appends. -/
def entryOfMark (m : Mark) : RangeEntry :=
  { start := m.start, stop := m.stop, count := m.count,
    language := some m.language }

/-- Progress state reachable by a sequence of `markComplete` calls from an
empty progress file. -/
def progressOfMarks (marks : List Mark) : List RangeEntry :=
  marks.foldl markComplete []

/-! ### Concrete rows for the C4 and C5 witnesses -/

/-- An enrichment-eligible stored row. -/
def wRow : Row :=
  { id := "9", source := "github", username := "u", name := "n"
    stars := 5, description := some "d", url := "https://y"
    created_at := "2025-02-02", relevance_score := some 1
    matched_interest := some "ml", summary := none, relevance := none
    scored_at := some "t1", embedded_at := none, enrich_attempts := some 0
    inserted_at := some "t0", summary_local := none
    sent_to_telegram_at := none, sent_to_slack_at := none }

/-- A one-row table listing for the C4 witness. -/
def wRows : List Row := [wRow]

/-! ### generateDateRanges (src/steps/2-fetch.ts)

Dates are modelled as integer day numbers; `now` is the day number of
today.  `endDate.setDate(endDate.getDate() - daysBack)` subtracts exactly
`daysBack` days, so a produced range `{start, end}` becomes the pair
`(now - min (daysBack + chunkDays) totalDays, now - daysBack)`.

The JavaScript `for` loop advances `daysBack` by `chunkDays`; it is encoded
with a fuel argument (structural recursion) — with `chunkDays ≥ 1` the loop
performs at most `totalDays` iterations, so fuel `totalDays` is exact.  The
guard also tests `0 < chunkDays`: with `chunkDays = 0` the JavaScript loop
never terminates, a case no claim exercises. -/
def generateDateRangesAux (now : ℤ) (totalDays chunkDays : ℕ) :
    ℕ → ℕ → List (ℤ × ℤ)
  | _, 0 => []
  | daysBack, fuel + 1 =>
    if daysBack < totalDays ∧ 0 < chunkDays then
      (now - min (daysBack + chunkDays) totalDays, now - daysBack) ::
        generateDateRangesAux now totalDays chunkDays (daysBack + chunkDays) fuel
    else []

/-- `generateDateRanges(totalDays, chunkDays)` evaluated when today is day
`now`. -/
def generateDateRanges (totalDays chunkDays : ℕ) (now : ℤ) : List (ℤ × ℤ) :=
  generateDateRangesAux now totalDays chunkDays 0 totalDays

/-- The produced ranges with today at day 0. -/
def ranges0 : List (ℤ × ℤ) := generateDateRanges 365 7 0

/-- Day membership of a window under the semantics the fetch gives it:
the GitHub query `created:start..end` includes both endpoint dates. -/
def inWindow (w : ℤ × ℤ) (day : ℤ) : Bool := decide (w.1 ≤ day ∧ day ≤ w.2)

/-- Day membership reading a window as the half-open range that excludes
its start date and includes its end date. -/
def inWindowAfterStart (w : ℤ × ℤ) (day : ℤ) : Bool :=
  decide (w.1 < day ∧ day ≤ w.2)

/-- Adjacency of the produced windows: each window's start date is the next
window's end date. -/
def chainStepsB : List (ℤ × ℤ) → Bool
  | [] => true
  | [_] => true
  | a :: b :: t => (b.2 == a.1) && chainStepsB (b :: t)

/-! ### JavaScript string and number primitives

Modelled over character lists so they evaluate in the kernel. -/

/-- JavaScript `s.includes(pat)`. -/
def jsIncludes (s pat : String) : Bool :=
  s.toList.tails.any fun t => pat.toList.isPrefixOf t

/-- JavaScript `s.startsWith(pre)`. -/
def jsStartsWith (s pre : String) : Bool :=
  pre.toList.isPrefixOf s.toList

/-- JavaScript `s.split(sep)` for a one-character separator. -/
def jsSplitCharAux (sep : Char) : List Char → List Char → List String
  | [], acc => [String.mk acc.reverse]
  | c :: rest, acc =>
    if c = sep then String.mk acc.reverse :: jsSplitCharAux sep rest []
    else jsSplitCharAux sep rest (c :: acc)

/-- JavaScript `s.split(sep)` for a one-character separator. -/
def jsSplitChar (sep : Char) (s : String) : List String :=
  jsSplitCharAux sep s.toList []

/-- A JavaScript number that is either an integer or NaN (the only values
`parseInt` produces). -/
inductive JSNumber where
  | nan
  | int (n : ℤ)
  deriving DecidableEq

/-- Whitespace skipped by `parseInt` (the ASCII cases; the CLI arguments
and HTTP headers the code parses contain no exotic whitespace). -/
def jsWhitespace (c : Char) : Bool :=
  (c == ' ') || (c == '\t') || (c == '\n') || (c == '\r')

/-- Value of a decimal digit. -/
def decDigitVal (c : Char) : ℕ := c.toNat - 48

/-- Hexadecimal digit test. -/
def isHexDigit (c : Char) : Bool :=
  c.isDigit || ('a' ≤ c && c ≤ 'f') || ('A' ≤ c && c ≤ 'F')

/-- Value of a hexadecimal digit. -/
def hexDigitVal (c : Char) : ℕ :=
  if c.isDigit then c.toNat - 48
  else if 'a' ≤ c && c ≤ 'f' then c.toNat - 87
  else c.toNat - 55

/-- Accumulate leading digits of the given base; NaN when there are none. -/
def jsParseDigits (base : ℕ) (isD : Char → Bool) (val : Char → ℕ)
    (neg : Bool) (cs : List Char) : JSNumber :=
  match cs.takeWhile isD with
  | [] => .nan
  | ds =>
    let n : ℕ := ds.foldl (fun n c => base * n + val c) 0
    .int (if neg then -(n : ℤ) else (n : ℤ))

/-- `parseInt` after sign handling: radix 16 after a `0x`/`0X` prefix,
radix 10 otherwise, reading the longest digit prefix. -/
def jsParseIntCore (neg : Bool) : List Char → JSNumber
  | '0' :: 'x' :: rest => jsParseDigits 16 isHexDigit hexDigitVal neg rest
  | '0' :: 'X' :: rest => jsParseDigits 16 isHexDigit hexDigitVal neg rest
  | cs => jsParseDigits 10 Char.isDigit decDigitVal neg cs

/-- JavaScript `parseInt(s)` (no explicit radix): skip whitespace, read an
optional sign, then the longest digit prefix; NaN when no digit follows. -/
def jsParseInt (s : String) : JSNumber :=
  match s.toList.dropWhile jsWhitespace with
  | '-' :: rest => jsParseIntCore true rest
  | '+' :: rest => jsParseIntCore false rest
  | rest => jsParseIntCore false rest

/-! ### The GitHub fetch (src/steps/2-fetch.ts, fetchGitHubRange)

The paged HTTP interaction is modelled by the page responses the loop
consumes: `responses page` is the JSON body the page-th request returns.
The 403 retry (which re-runs an identical request) and thrown HTTP errors
abort the whole window and are outside what C6 observes, so the model reads
each page once. -/

/-- The fields of one `data.items` element the loop reads.  `description`
is nullable (`repo.description || ""` defaults it). -/
structure GHRepoItem where
  id : ℤ
  login : String
  name : String
  stargazers_count : ℤ
  description : Option String
  html_url : String
  created_at : String
  deriving DecidableEq

/-- One search response body: `total_count` and `items`. -/
structure GHResponse where
  total_count : ℤ
  items : List GHRepoItem
  deriving DecidableEq

/-- The Post built from one repo item. -/
def postOfRepo (repo : GHRepoItem) : Post :=
  { id := toString repo.id
    source := "github"
    username := repo.login
    name := repo.name
    stars := repo.stargazers_count
    description := repo.description.getD ""
    url := repo.html_url
    created_at := repo.created_at
    relevance_score := none
    matched_interest := none
    summary := none
    relevance := none
    scored_at := none }

/-- The result record of `fetchGitHubRange`. -/
structure FetchResult where
  posts : List Post
  totalCount : ℤ
  hitLimit : Bool
  deriving DecidableEq

/-- The page loop `for (let page = 1; page <= 10; page++)`: stop on an
empty page, collect the items meeting the star floor, stop after a page of
fewer than 100 items.  Fuel 10 matches the page bound exactly. -/
def fetchPagesAux (responses : ℕ → GHResponse) (minStars : ℤ) :
    ℕ → ℕ → List Post → List Post
  | _, 0, acc => acc
  | page, fuel + 1, acc =>
    let items := (responses page).items
    if items.length = 0 then acc
    else
      let acc2 := acc ++
        (items.filter fun repo => !(repo.stargazers_count < minStars)).map postOfRepo
      if items.length < 100 then acc2
      else fetchPagesAux responses minStars (page + 1) fuel acc2

/-- `fetchGitHubRange` for one window: `totalCount` is `data.total_count`
of the first page, and the data-loss flag is `hitLimit: totalCount > 1000`. -/
def fetchGitHubRange (responses : ℕ → GHResponse) (minStars : ℤ) : FetchResult :=
  { posts := fetchPagesAux responses minStars 1 10 []
    totalCount := (responses 1).total_count
    hitLimit := decide ((responses 1).total_count > 1000) }

/-- Responses for the C6 counterexample: the source reports exactly 1000
matching results. -/
def cexResponses : ℕ → GHResponse := fun _ => { total_count := 1000, items := [] }

/-! ### The LLM retry loop (src/llm/client.ts) -/

/-- The shape of the caught error object: optional HTTP status, message
text, and the optional `retry-after` header value. -/
structure LLMError where
  status : Option ℤ
  message : String
  retryAfter : Option String
  deriving DecidableEq

def MAX_RETRIES : ℕ := 5

def RETRY_DELAY_MS : ℤ := 1000

def RATE_LIMIT_DELAY_MS : ℤ := 15000

/-- `isRetryableError`: message mentions a timeout / reset / overload, or
the status is 429, 529 or any 5xx (`error?.status >= 500` is false when the
status is absent). -/
def isRetryableError (e : LLMError) : Bool :=
  jsIncludes e.message "timeout" ||
  jsIncludes e.message "ECONNRESET" ||
  jsIncludes e.message "ETIMEDOUT" ||
  jsIncludes e.message "overloaded" ||
  (e.status == some 429) ||
  (e.status == some 529) ||
  (match e.status with
    | some n => decide (500 ≤ n)
    | none => false)

/-- The rate-limit wait: a present, non-empty `retry-after` header gives
`parseInt(retryAfter) * 1000 + 1000` (a NaN wait makes `setTimeout` fire
immediately, hence 0), otherwise the fixed 15s cooldown. -/
def rateLimitWait (e : LLMError) : ℤ :=
  match e.retryAfter with
  | some h =>
    if h = "" then RATE_LIMIT_DELAY_MS
    else
      match jsParseInt h with
      | .int n => n * 1000 + 1000
      | .nan => 0
  | none => RATE_LIMIT_DELAY_MS

/-- `handleRetry`: a 429 waits the rate-limit cooldown, another retryable
error waits `RETRY_DELAY_MS * attempt` (linear backoff), anything else is
rethrown.  The returned value is the wait in milliseconds. -/
def handleRetry (e : LLMError) (attempt : ℕ) : Except LLMError ℤ :=
  if e.status == some 429 then .ok (rateLimitWait e)
  else if isRetryableError e then .ok (RETRY_DELAY_MS * (attempt : ℤ))
  else .error e

/-- The retry loop of `callOpenAIWithRetry` / `callAnthropicWithRetry`:
attempts are numbered 1..MAX_RETRIES; `f attempt` is the outcome the
underlying API call would produce on that attempt.  The loop returns the
call result together with the list of waits it performed, in order.  A
failure on the last attempt (and a non-retryable error at any attempt) is
rethrown. -/
def callWithRetryAux (f : ℕ → Except LLMError String) :
    ℕ → ℕ → List ℤ → Except LLMError String × List ℤ
  | _, 0, waits => (.ok "", waits)
  | attempt, fuel + 1, waits =>
    match f attempt with
    | .ok v => (.ok v, waits)
    | .error e =>
      if attempt = MAX_RETRIES then (.error e, waits)
      else
        match handleRetry e attempt with
        | .error e2 => (.error e2, waits)
        | .ok w => callWithRetryAux f (attempt + 1) fuel (waits ++ [w])

/-- `callOpenAIWithRetry` (the loop structure is shared with the Anthropic
variant), starting at attempt 1 with the MAX_RETRIES bound. -/
def callOpenAIWithRetry (f : ℕ → Except LLMError String) :
    Except LLMError String × List ℤ :=
  callWithRetryAux f 1 MAX_RETRIES []

/-- Transient outcome stream for the C8 witness: every attempt fails with
a 503 whose message mentions a timeout. -/
def wTransientErr : LLMError :=
  { status := some 503, message := "Request timeout", retryAfter := none }

/-- Outcomes for the C8 witness. -/
def wOutcomes : ℕ → Except LLMError String := fun _ => .error wTransientErr

/-! ### The orchestrator (src/pipeline.ts, runPipeline)

`runPipeline` is a `try { stages } catch { console.error; process.exit(1) }
finally { posts.close() }`.  The model tracks the externally visible
events.  Node semantics: `process.exit()` terminates the process
immediately — statements after it, including pending `finally` blocks, do
not run; an `exited` outcome therefore bypasses the finaliser, while `ret`
and `thrown` outcomes run it. -/

/-- Externally visible events of a pipeline run. -/
inductive PEvent where
  | stageRun (step : ℕ)
  | storeClosed
  | exitCalled (code : ℕ)
  deriving DecidableEq

/-- Outcome of a JavaScript computation: normal return, a thrown error, or
process termination via `process.exit`. -/
inductive JsOutcome (α : Type) where
  | ret (a : α)
  | thrown (e : String)
  | exited (code : ℕ)
  deriving DecidableEq

/-- A computation producing a trace of events and an outcome. -/
def JsComp (α : Type) : Type := List PEvent → List PEvent × JsOutcome α

/-- Run a `finally` block after an outcome: `process.exit` has already
terminated the process, so an `exited` outcome skips the block; otherwise
the block runs and its own abrupt outcome would replace the pending one. -/
def runFinally {α : Type} (fin : JsComp Unit) (out : JsOutcome α) :
    JsComp α := fun tr =>
  match out with
  | .exited c => (tr, .exited c)
  | o =>
    match fin tr with
    | (tr2, .ret _) => (tr2, o)
    | (tr2, .thrown e2) => (tr2, .thrown e2)
    | (tr2, .exited c) => (tr2, .exited c)

/-- `try body catch handler finally fin`. -/
def jsTryCatchFinally {α : Type} (body : JsComp α)
    (handler : String → JsComp α) (fin : JsComp Unit) : JsComp α := fun tr =>
  match body tr with
  | (tr1, .thrown e) =>
    match handler e tr1 with
    | (tr2, out2) => runFinally fin out2 tr2
  | (tr1, out) => runFinally fin out tr1

/-- `process.exit(code)`. -/
def processExit (code : ℕ) : JsComp Unit := fun tr =>
  (tr ++ [.exitCalled code], .exited code)

/-- `posts.close()`, the finaliser of `runPipeline`. -/
def closeStore : JsComp Unit := fun tr =>
  (tr ++ [.storeClosed], .ret ())

/-- Running one stage: the stage either completes or throws. -/
def runStage (step : ℕ) (res : Except String Unit) : JsComp Unit := fun tr =>
  match res with
  | .ok _ => (tr ++ [.stageRun step], .ret ())
  | .error e => (tr ++ [.stageRun step], .thrown e)

/-- Sequencing: the second computation runs only after a normal return. -/
def seqComp (a b : JsComp Unit) : JsComp Unit := fun tr =>
  match a tr with
  | (tr1, .ret _) => b tr1
  | other => other

/-- The try body of `runPipeline` with every stage enabled: the eight
stages in order, each aborting the rest when it throws. -/
def pipelineBody (stages : ℕ → Except String Unit) : JsComp Unit :=
  [1, 2, 3, 4, 5, 6, 7, 8].foldl
    (fun acc i => seqComp acc (runStage i (stages i)))
    (fun tr => (tr, .ret ()))

/-- `runPipeline`: the stages inside
`try ... catch { process.exit(1) } finally { posts.close() }`. -/
def runPipeline (stages : ℕ → Except String Unit) : JsComp Unit :=
  jsTryCatchFinally (pipelineBody stages) (fun _ => processExit 1) closeStore

/-- Failing input for C9: the first stage throws. -/
def failingStages : ℕ → Except String Unit := fun i =>
  if i = 1 then .error "boom" else .ok ()

/-! ### CLI parsing (src/pipeline.ts, parseArgs and shouldRun) -/

/-- The options record `parseArgs` builds. -/
structure PipelineOptions where
  skipLlm : Bool
  skipEmbed : Bool
  skipReadme : Bool
  skipNotify : Bool
  stepOnly : Option JSNumber
  fetchDays : ℤ
  sources : Option (List String)
  deriving DecidableEq

/-- Charwise JavaScript `s.trim()` (ASCII whitespace). -/
def jsTrim (s : String) : String :=
  String.mk (((s.toList.dropWhile jsWhitespace).reverse.dropWhile jsWhitespace).reverse)

/-- `parseArgs` over `process.argv.slice(2)`: boolean flags by exact
membership; `--step=N` parsed with `parseInt` (null when the flag is
absent); `--days=N` defaulted to 365 through `parseInt(...) || 365`;
`--sources=a,b` split on commas and trimmed. -/
def parseArgs (args : List String) : PipelineOptions :=
  let base : PipelineOptions :=
    { skipLlm := args.contains "--skip-llm"
      skipEmbed := args.contains "--skip-embed"
      skipReadme := args.contains "--skip-readme"
      skipNotify := args.contains "--skip-notify"
      stepOnly := none
      fetchDays := 365
      sources := none }
  let withStep :=
    match args.find? (fun a => jsStartsWith a "--step=") with
    | some a =>
      { base with stepOnly := some (jsParseInt ((jsSplitChar '=' a).getD 1 "")) }
    | none => base
  let withDays :=
    match args.find? (fun a => jsStartsWith a "--days=") with
    | some a =>
      { withStep with
        fetchDays :=
          (match jsParseInt ((jsSplitChar '=' a).getD 1 "") with
            | .int n => if n = 0 then 365 else n
            | .nan => 365) }
    | none => withStep
  match args.find? (fun a => jsStartsWith a "--sources=") with
  | some a =>
    { withDays with
      sources := some ((jsSplitChar ',' ((jsSplitChar '=' a).getD 1 "")).map jsTrim) }
  | none => withDays

/-- JavaScript truthiness of `stepOnly : number | null`: null, 0 and NaN
are falsy. -/
def jsTruthyNum : Option JSNumber → Bool
  | none => false
  | some .nan => false
  | some (.int n) => !(n == 0)

/-- JavaScript `options.stepOnly === step` (NaN equals nothing, null is not
a number). -/
def jsStrictEqNum : Option JSNumber → ℤ → Bool
  | some (.int n), m => n == m
  | _, _ => false

/-- `shouldRun(step, options)`: `!options.stepOnly || options.stepOnly ===
step`. -/
def shouldRun (step : ℤ) (options : PipelineOptions) : Bool :=
  !jsTruthyNum options.stepOnly || jsStrictEqNum options.stepOnly step

/-!
## Theorems
-/

@[simp] theorem coalesce_some {α : Type} (a : α) (b : Option α) :
    coalesce (some a) b = some a := rfl

@[simp] theorem coalesce_none {α : Type} (b : Option α) :
    coalesce none b = b := rfl

/-! ### C1: merge precedence of the upsert -/

/-- C1 is false on the code: upserting an incoming record whose
`relevance_score` (and `summary`) are non-null over a stored record whose
values are also non-null replaces the stored values with the incoming ones
instead of keeping them.  The stored score was `some 1`; after the upsert
it is `some 2`, and the stored summary likewise changed. -/
theorem upsert_first_write_wins_cex :
    (posts.upsertMany "i1" cexState [cexIncoming] ("1", "github")).map
        Row.relevance_score = some (some 2) ∧
    (posts.upsertMany "i1" cexState [cexIncoming] ("1", "github")).map
        Row.summary = some (some "new summary") ∧
    cexSeed.relevance_score = some 1 ∧
    cexSeed.summary = some "old summary" := by
  refine ⟨?_, ?_, rfl, rfl⟩ <;> rfl

/-- C1 amended: for a stored record and an incoming record with the same
key, the upsert applies an incoming mutable field whenever the incoming
value is non-null (last non-null write wins), and keeps the stored value
only when the incoming value is NULL. -/
theorem upsert_incoming_wins (s : posts.State) (now : String) (p : Post)
    (r : Row) (h : s (p.id, p.source) = some r) :
    ∃ r', posts.upsertMany now s [p] (p.id, p.source) = some r' ∧
      (∀ v, p.relevance_score = some v → r'.relevance_score = some v) ∧
      (p.relevance_score = none → r'.relevance_score = r.relevance_score) ∧
      (∀ v, p.matched_interest = some v → r'.matched_interest = some v) ∧
      (p.matched_interest = none → r'.matched_interest = r.matched_interest) ∧
      (∀ v, p.summary = some v → r'.summary = some v) ∧
      (p.summary = none → r'.summary = r.summary) ∧
      (∀ v, p.relevance = some v → r'.relevance = some v) ∧
      (p.relevance = none → r'.relevance = r.relevance) ∧
      (∀ v, p.scored_at = some v → r'.scored_at = some v) ∧
      (p.scored_at = none → r'.scored_at = r.scored_at) := by
  refine ⟨posts.mergeRow p r, ?_, ?_⟩
  · simp [posts.upsertMany, posts.upsertOne, h]
  · constructor
    · intro v hv; simp [posts.mergeRow, hv]
    constructor
    · intro hv; simp [posts.mergeRow, hv]
    constructor
    · intro v hv; simp [posts.mergeRow, hv]
    constructor
    · intro hv; simp [posts.mergeRow, hv]
    constructor
    · intro v hv; simp [posts.mergeRow, hv]
    constructor
    · intro hv; simp [posts.mergeRow, hv]
    constructor
    · intro v hv; simp [posts.mergeRow, hv]
    constructor
    · intro hv; simp [posts.mergeRow, hv]
    constructor
    · intro v hv; simp [posts.mergeRow, hv]
    · intro hv; simp [posts.mergeRow, hv]

/-- Concrete instantiation of `upsert_incoming_wins` at the counterexample
state, discharging its hypothesis. -/
theorem upsert_incoming_wins_witness :
    ∃ r', posts.upsertMany "i1" cexState [cexIncoming]
        (cexIncoming.id, cexIncoming.source) = some r' ∧
      (∀ v, cexIncoming.relevance_score = some v → r'.relevance_score = some v) ∧
      (cexIncoming.relevance_score = none →
        r'.relevance_score = (posts.insertRow cexSeed "i0").relevance_score) ∧
      (∀ v, cexIncoming.matched_interest = some v → r'.matched_interest = some v) ∧
      (cexIncoming.matched_interest = none →
        r'.matched_interest = (posts.insertRow cexSeed "i0").matched_interest) ∧
      (∀ v, cexIncoming.summary = some v → r'.summary = some v) ∧
      (cexIncoming.summary = none →
        r'.summary = (posts.insertRow cexSeed "i0").summary) ∧
      (∀ v, cexIncoming.relevance = some v → r'.relevance = some v) ∧
      (cexIncoming.relevance = none →
        r'.relevance = (posts.insertRow cexSeed "i0").relevance) ∧
      (∀ v, cexIncoming.scored_at = some v → r'.scored_at = some v) ∧
      (cexIncoming.scored_at = none →
        r'.scored_at = (posts.insertRow cexSeed "i0").scored_at) :=
  upsert_incoming_wins cexState "i1" cexIncoming
    (posts.insertRow cexSeed "i0") (by rfl)

/-! ### C2: idempotency of upsertMany

The proof works per key: a batch acts on each key through the posts that
target it (`applyKey`), and each field of the row evolves through an
independent fold (`starsFold`, `descFold`, `coalFold`).  Re-applying the
batch is absorbed field by field. -/

theorem descStep_eq_of_le {p : Post} {d : Option String}
    (h : p.description.length ≤ dlen d) : descStep p d = d := by
  unfold descStep
  split
  · next hgt => exact absurd hgt (by omega)
  · rfl

theorem dlen_le_descStep (p : Post) (d : Option String) :
    dlen d ≤ dlen (descStep p d) := by
  unfold descStep
  split
  · next hgt => simp [dlen] at hgt ⊢; omega
  · exact le_rfl

theorem len_le_dlen_descStep (p : Post) (d : Option String) :
    p.description.length ≤ dlen (descStep p d) := by
  unfold descStep
  split
  · simp [dlen]
  · next hgt => omega

theorem descFold_cons (p : Post) (d : Option String) (ps : List Post) :
    descFold d (p :: ps) = descFold (descStep p d) ps := rfl

theorem dlen_le_descFold (d : Option String) (ps : List Post) :
    dlen d ≤ dlen (descFold d ps) := by
  induction ps generalizing d with
  | nil => exact le_rfl
  | cons q ps ih =>
    rw [descFold_cons]
    exact (dlen_le_descStep q d).trans (ih (descStep q d))

theorem descFold_idem (d : Option String) (ps : List Post) :
    descFold (descFold d ps) ps = descFold d ps := by
  induction ps generalizing d with
  | nil => rfl
  | cons q ps ih =>
    rw [descFold_cons, descFold_cons]
    have habs : descStep q (descFold (descStep q d) ps) =
        descFold (descStep q d) ps :=
      descStep_eq_of_le
        ((len_le_dlen_descStep q d).trans (dlen_le_descFold _ ps))
    rw [habs]
    exact ih (descStep q d)

theorem descFold_absorb {p : Post} {d : Option String} (ps : List Post)
    (h : p.description.length ≤ dlen d) :
    descFold (descStep p (descFold d ps)) ps = descFold d ps := by
  rw [descStep_eq_of_le (h.trans (dlen_le_descFold d ps))]
  exact descFold_idem d ps

theorem coalFold_cons {α : Type} (g : Post → Option α) (x : Option α)
    (p : Post) (ps : List Post) :
    coalFold g x (p :: ps) = coalFold g (coalesce (g p) x) ps := rfl

theorem coalFold_idem {α : Type} (g : Post → Option α) (x : Option α)
    (ps : List Post) :
    coalFold g (coalFold g x ps) ps = coalFold g x ps := by
  induction ps generalizing x with
  | nil => rfl
  | cons q ps ih =>
    simp only [coalFold_cons]
    cases hq : g q with
    | none => simp only [hq, coalesce_none]; exact ih x
    | some a => simp only [hq, coalesce_some]

theorem coalFold_absorb {α : Type} (g : Post → Option α) (ps : List Post)
    {o x : Option α} (h : ∀ a, o = some a → x = some a) :
    coalFold g (coalesce o (coalFold g x ps)) ps = coalFold g x ps := by
  cases o with
  | none => rw [coalesce_none]; exact coalFold_idem g x ps
  | some a => rw [coalesce_some, h a rfl]

theorem applyRows_cons (p : Post) (r : Row) (ps : List Post) :
    applyRows r (p :: ps) = applyRows (posts.mergeRow p r) ps := rfl

/-- The conflict branch never touches the columns outside its SET list. -/
theorem applyRows_untouched (r : Row) (ps : List Post) :
    (applyRows r ps).id = r.id ∧
    (applyRows r ps).source = r.source ∧
    (applyRows r ps).username = r.username ∧
    (applyRows r ps).name = r.name ∧
    (applyRows r ps).url = r.url ∧
    (applyRows r ps).created_at = r.created_at ∧
    (applyRows r ps).embedded_at = r.embedded_at ∧
    (applyRows r ps).enrich_attempts = r.enrich_attempts ∧
    (applyRows r ps).inserted_at = r.inserted_at ∧
    (applyRows r ps).summary_local = r.summary_local ∧
    (applyRows r ps).sent_to_telegram_at = r.sent_to_telegram_at ∧
    (applyRows r ps).sent_to_slack_at = r.sent_to_slack_at := by
  induction ps generalizing r with
  | nil => exact ⟨rfl, rfl, rfl, rfl, rfl, rfl, rfl, rfl, rfl, rfl, rfl, rfl⟩
  | cons q ps ih =>
    rw [applyRows_cons]
    exact ih (posts.mergeRow q r)

theorem applyRows_stars (r : Row) (ps : List Post) :
    (applyRows r ps).stars = starsFold r.stars ps := by
  induction ps generalizing r with
  | nil => rfl
  | cons q ps ih => rw [applyRows_cons]; exact ih (posts.mergeRow q r)

theorem starsFold_congr (x y : ℤ) (ps : List Post) (h : x = y) :
    starsFold x ps = starsFold y ps := by rw [h]

theorem applyRows_description (r : Row) (ps : List Post) :
    (applyRows r ps).description = descFold r.description ps := by
  induction ps generalizing r with
  | nil => rfl
  | cons q ps ih => rw [applyRows_cons]; exact ih (posts.mergeRow q r)

theorem applyRows_relevance_score (r : Row) (ps : List Post) :
    (applyRows r ps).relevance_score =
      coalFold Post.relevance_score r.relevance_score ps := by
  induction ps generalizing r with
  | nil => rfl
  | cons q ps ih => rw [applyRows_cons]; exact ih (posts.mergeRow q r)

theorem applyRows_matched_interest (r : Row) (ps : List Post) :
    (applyRows r ps).matched_interest =
      coalFold Post.matched_interest r.matched_interest ps := by
  induction ps generalizing r with
  | nil => rfl
  | cons q ps ih => rw [applyRows_cons]; exact ih (posts.mergeRow q r)

theorem applyRows_summary (r : Row) (ps : List Post) :
    (applyRows r ps).summary = coalFold Post.summary r.summary ps := by
  induction ps generalizing r with
  | nil => rfl
  | cons q ps ih => rw [applyRows_cons]; exact ih (posts.mergeRow q r)

theorem applyRows_relevance (r : Row) (ps : List Post) :
    (applyRows r ps).relevance = coalFold Post.relevance r.relevance ps := by
  induction ps generalizing r with
  | nil => rfl
  | cons q ps ih => rw [applyRows_cons]; exact ih (posts.mergeRow q r)

theorem applyRows_scored_at (r : Row) (ps : List Post) :
    (applyRows r ps).scored_at = coalFold Post.scored_at r.scored_at ps := by
  induction ps generalizing r with
  | nil => rfl
  | cons q ps ih => rw [applyRows_cons]; exact ih (posts.mergeRow q r)

/-- A row that already reflects an upsert of `p` absorbs a second merge of
`p` followed by the same post list. -/
theorem applyRows_absorb (ps : List Post) (p : Post) (r0 : Row)
    (hstars : r0.stars = p.stars)
    (hdesc : p.description.length ≤ dlen r0.description)
    (hrs : ∀ a, p.relevance_score = some a → r0.relevance_score = some a)
    (hmi : ∀ a, p.matched_interest = some a → r0.matched_interest = some a)
    (hsum : ∀ a, p.summary = some a → r0.summary = some a)
    (hrel : ∀ a, p.relevance = some a → r0.relevance = some a)
    (hsc : ∀ a, p.scored_at = some a → r0.scored_at = some a) :
    applyRows (posts.mergeRow p (applyRows r0 ps)) ps = applyRows r0 ps := by
  have hu := applyRows_untouched (posts.mergeRow p (applyRows r0 ps)) ps
  have hm_d : (posts.mergeRow p (applyRows r0 ps)).description =
      descStep p (applyRows r0 ps).description := rfl
  have hm_rs : (posts.mergeRow p (applyRows r0 ps)).relevance_score =
      coalesce p.relevance_score (applyRows r0 ps).relevance_score := rfl
  have hm_mi : (posts.mergeRow p (applyRows r0 ps)).matched_interest =
      coalesce p.matched_interest (applyRows r0 ps).matched_interest := rfl
  have hm_su : (posts.mergeRow p (applyRows r0 ps)).summary =
      coalesce p.summary (applyRows r0 ps).summary := rfl
  have hm_re : (posts.mergeRow p (applyRows r0 ps)).relevance =
      coalesce p.relevance (applyRows r0 ps).relevance := rfl
  have hm_sc : (posts.mergeRow p (applyRows r0 ps)).scored_at =
      coalesce p.scored_at (applyRows r0 ps).scored_at := rfl
  apply Row.ext
  · exact hu.1
  · exact hu.2.1
  · exact hu.2.2.1
  · exact hu.2.2.2.1
  · rw [applyRows_stars, applyRows_stars]
    exact starsFold_congr _ _ ps hstars.symm
  · rw [applyRows_description, hm_d, applyRows_description]
    exact descFold_absorb ps hdesc
  · exact hu.2.2.2.2.1
  · exact hu.2.2.2.2.2.1
  · rw [applyRows_relevance_score, hm_rs, applyRows_relevance_score]
    exact coalFold_absorb _ ps hrs
  · rw [applyRows_matched_interest, hm_mi, applyRows_matched_interest]
    exact coalFold_absorb _ ps hmi
  · rw [applyRows_summary, hm_su, applyRows_summary]
    exact coalFold_absorb _ ps hsum
  · rw [applyRows_relevance, hm_re, applyRows_relevance]
    exact coalFold_absorb _ ps hrel
  · rw [applyRows_scored_at, hm_sc, applyRows_scored_at]
    exact coalFold_absorb _ ps hsc
  · exact hu.2.2.2.2.2.2.1
  · exact hu.2.2.2.2.2.2.2.1
  · exact hu.2.2.2.2.2.2.2.2.1
  · exact hu.2.2.2.2.2.2.2.2.2.1
  · exact hu.2.2.2.2.2.2.2.2.2.2.1
  · exact hu.2.2.2.2.2.2.2.2.2.2.2

theorem applyKey_some (now : String) (r : Row) (ps : List Post) :
    applyKey now (some r) ps = some (applyRows r ps) := by
  induction ps generalizing r with
  | nil => rfl
  | cons q ps ih => exact ih (posts.mergeRow q r)

/-- Re-running the upsert steps of one key over a value they already
produced changes nothing. -/
theorem applyKey_idem (t1 t2 : String) (v : Option Row) (ps : List Post) :
    applyKey t2 (applyKey t1 v ps) ps = applyKey t1 v ps := by
  cases ps with
  | nil => rfl
  | cons p ps =>
    cases v with
    | none =>
      show applyKey t2 (applyKey t1 (some (posts.insertRow p t1)) ps) (p :: ps) =
        applyKey t1 (some (posts.insertRow p t1)) ps
      rw [applyKey_some]
      show applyKey t2
        (some (posts.mergeRow p (applyRows (posts.insertRow p t1) ps))) ps = _
      rw [applyKey_some]
      refine congrArg some ?_
      exact applyRows_absorb ps p (posts.insertRow p t1) rfl
        (le_of_eq (by simp [posts.insertRow, dlen]))
        (fun a ha => by simpa [posts.insertRow] using ha)
        (fun a ha => by simpa [posts.insertRow] using ha)
        (fun a ha => by simpa [posts.insertRow] using ha)
        (fun a ha => by simpa [posts.insertRow] using ha)
        (fun a ha => by simpa [posts.insertRow] using ha)
    | some r =>
      show applyKey t2 (applyKey t1 (some (posts.mergeRow p r)) ps) (p :: ps) =
        applyKey t1 (some (posts.mergeRow p r)) ps
      rw [applyKey_some]
      show applyKey t2
        (some (posts.mergeRow p (applyRows (posts.mergeRow p r) ps))) ps = _
      rw [applyKey_some]
      refine congrArg some ?_
      refine applyRows_absorb ps p (posts.mergeRow p r) rfl
        (len_le_dlen_descStep p r.description) ?_ ?_ ?_ ?_ ?_ <;>
        · intro a ha
          simp [posts.mergeRow, ha]

/-- `upsertMany` acts on each key through the posts of the batch that
target it. -/
theorem upsertMany_apply (now : String) (s : posts.State) (b : List Post)
    (k : String × String) :
    posts.upsertMany now s b k =
      applyKey now (s k) (b.filter fun p => decide ((p.id, p.source) = k)) := by
  induction b generalizing s with
  | nil => rfl
  | cons p b ih =>
    show posts.upsertMany now (posts.upsertOne now s p) b k = _
    rw [ih]
    by_cases hk : (p.id, p.source) = k
    · have h1 : posts.upsertOne now s p k = stepKey now (s k) p := by
        rw [posts.upsertOne, if_pos hk.symm, hk]
        cases s k <;> rfl
      rw [h1, List.filter_cons_of_pos (by simpa using hk)]
      rfl
    · have h1 : posts.upsertOne now s p k = s k := by
        rw [posts.upsertOne, if_neg (fun h => hk h.symm)]
      rw [h1, List.filter_cons_of_neg (by simpa using hk)]

/-- C2 confirmed: applying the same batch twice through `upsertMany` leaves
exactly the stored state of applying it once, for every starting state and
whatever CURRENT_TIMESTAMP each transaction sees. -/
theorem upsertMany_idempotent (s : posts.State) (b : List Post)
    (t1 t2 : String) :
    posts.upsertMany t2 (posts.upsertMany t1 s b) b = posts.upsertMany t1 s b := by
  funext k
  rw [upsertMany_apply, upsertMany_apply t1]
  exact applyKey_idem t1 t2 (s k) _

/-! ### C4: enrichment eligibility -/

/-- The WHERE clause of `getUnenriched`, spelled out. -/
theorem enrichEligible_iff (minScore : ℚ) (maxAttempts : ℤ) (r : Row) :
    posts.enrichEligible minScore maxAttempts r = true ↔
      (∃ v, r.relevance_score = some v ∧ minScore ≤ v) ∧
        r.summary = none ∧ r.enrich_attempts.getD 0 < maxAttempts := by
  cases hrs : r.relevance_score with
  | none => simp [posts.enrichEligible, hrs]
  | some v =>
    simp only [posts.enrichEligible, hrs, Bool.and_eq_true, decide_eq_true_eq,
      Option.isNone_iff_eq_none, Option.some.injEq]
    constructor
    · rintro ⟨⟨h1, h2⟩, h3⟩; exact ⟨⟨v, rfl, h1⟩, h2, h3⟩
    · rintro ⟨⟨w, hw, h1⟩, h2, h3⟩; cases hw; exact ⟨⟨h1, h2⟩, h3⟩

/-- C4 confirmed: as long as the LIMIT does not truncate (the eligible rows
fit in `limit`), a stored record is returned by `getUnenriched` iff
`relevance_score ≥ minScore` (the boundary `relevance_score = minScore` is
eligible, and a NULL score is not), `summary` is NULL, and
`COALESCE(enrich_attempts, 0) < maxAttempts`; in particular a record whose
attempt counter has reached `maxAttempts` is excluded even though its
summary is still NULL. -/
theorem getUnenriched_mem (rows : List Row) (minScore : ℚ) (limit : ℕ)
    (maxAttempts : ℤ) (r : Row)
    (h : (rows.filter (posts.enrichEligible minScore maxAttempts)).length ≤ limit) :
    r ∈ posts.getUnenriched rows minScore limit maxAttempts ↔
      r ∈ rows ∧ (∃ v, r.relevance_score = some v ∧ minScore ≤ v) ∧
        r.summary = none ∧ r.enrich_attempts.getD 0 < maxAttempts := by
  unfold posts.getUnenriched
  rw [List.take_of_length_le (by rw [List.length_mergeSort]; exact h),
    List.mem_mergeSort, List.mem_filter]
  rw [enrichEligible_iff]

/-- Concrete instantiation of `getUnenriched_mem`, discharging its LIMIT
hypothesis: with threshold 1, a row scored exactly 1 with NULL summary and
0 attempts is returned. -/
theorem getUnenriched_mem_witness :
    (wRows.filter (posts.enrichEligible 1 3)).length ≤ 1000 ∧
      (wRow ∈ posts.getUnenriched wRows 1 1000 3 ↔
        wRow ∈ wRows ∧ (∃ v, wRow.relevance_score = some v ∧ 1 ≤ v) ∧
          wRow.summary = none ∧ wRow.enrich_attempts.getD 0 < 3) :=
  ⟨by decide, getUnenriched_mem wRows 1 1000 3 wRow (by decide)⟩

/-! ### C5: re-applying a stage result -/

/-- C5 is false on the code: running `posts.updateEnrichment` a second time
with the same arguments changes the stored record again, because each call
increments `enrich_attempts`.  Evaluated at the seeded record, one call
stores attempt count 1 and the second stores 2. -/
theorem applyStageResult_idem_cex :
    posts.updateEnrichment (posts.updateEnrichment cexState "1" "github" "s" none)
        "1" "github" "s" none ("1", "github") ≠
      posts.updateEnrichment cexState "1" "github" "s" none ("1", "github") := by
  decide

/-- C5 amended: `updateScore` re-applied with the same arguments (including
the timestamp it stamps into `scored_at`) is a no-op, but `updateEnrichment`
is not idempotent: a second application with the same arguments leaves every
column unchanged except `enrich_attempts`, which it increments again. -/
theorem applyStageResult_amended :
    (∀ (s : posts.State) (id source : String) (score : ℚ)
        (mi : Option String) (now : String),
      posts.updateScore (posts.updateScore s id source score mi now)
          id source score mi now =
        posts.updateScore s id source score mi now) ∧
    (∀ (s : posts.State) (id source summary : String) (sl : Option String)
        (k : String × String),
      posts.updateEnrichment (posts.updateEnrichment s id source summary sl)
          id source summary sl k =
        if k = (id, source) then
          (posts.updateEnrichment s id source summary sl k).map fun r =>
            { r with enrich_attempts := some (r.enrich_attempts.getD 0 + 1) }
        else posts.updateEnrichment s id source summary sl k) := by
  constructor
  · intro s id source score mi now
    funext k
    by_cases hk : k = (id, source)
    · simp only [posts.updateScore, if_pos hk]
      cases s k <;> rfl
    · simp only [posts.updateScore, if_neg hk]
  · intro s id source summary sl k
    by_cases hk : k = (id, source)
    · simp only [posts.updateEnrichment, if_pos hk]
      cases s k <;> simp
    · simp only [posts.updateEnrichment, if_neg hk]

/-! ### C7: checkpoint completeness is keyed by window and language -/

theorem progressOfMarks_eq_map (marks : List Mark) :
    progressOfMarks marks = marks.map entryOfMark := by
  suffices h : ∀ acc, marks.foldl markComplete acc = acc ++ marks.map entryOfMark by
    simpa using h []
  induction marks with
  | nil => intro acc; simp
  | cons m marks ih =>
    intro acc
    simp only [List.foldl_cons, List.map_cons, ih (markComplete acc m)]
    simp [markComplete, entryOfMark]

/-- C7 confirmed: over any progress state built by `markComplete` calls,
`isCompleted` answers true exactly when that window was previously marked
complete with the same language partition key; in particular a window only
marked under language A is reported incomplete (hence re-fetched) under a
different language B. -/
theorem isCompleted_iff_marked (marks : List Mark) (s e lang : String) :
    isCompleted (progressOfMarks marks) s e lang = true ↔
      ∃ m ∈ marks, m.start = s ∧ m.stop = e ∧ m.language = lang := by
  rw [progressOfMarks_eq_map]
  simp only [isCompleted, List.any_eq_true, List.mem_map]
  constructor
  · rintro ⟨r, ⟨m, hm, rfl⟩, hpred⟩
    simp only [entryOfMark, Option.getD_some, Bool.and_eq_true, beq_iff_eq] at hpred
    exact ⟨m, hm, hpred.1.1, hpred.1.2, hpred.2⟩
  · rintro ⟨m, hm, h1, h2, h3⟩
    refine ⟨entryOfMark m, ⟨m, hm, rfl⟩, ?_⟩
    simp [entryOfMark, h1, h2, h3]

/-! ### C3: shape of the 365-day window sequence -/

/-- C3 is false on the code: read as the inclusive date ranges the GitHub
query gives them, the windows produced by `generateDateRanges(365, 7)` are
not pairwise non-overlapping — with today at day 0 the first two windows
are `(-7, 0)` and `(-14, -7)`, and the date 7 days ago lies in both (it is
counted twice over the window list). -/
theorem generateWindows_disjoint_cex :
    (ranges0.take 2 = [(-7, 0), (-14, -7)]) ∧
    inWindow (-7, 0) (-7) = true ∧
    inWindow (-14, -7) (-7) = true ∧
    ranges0.countP (fun w => inWindow w (-7)) = 2 := by
  refine ⟨?_, rfl, rfl, ?_⟩ <;> decide

theorem generateDateRangesAux_translate (now : ℤ) (t c : ℕ) :
    ∀ fuel daysBack,
      generateDateRangesAux now t c daysBack fuel =
        (generateDateRangesAux 0 t c daysBack fuel).map
          (fun w => (w.1 + now, w.2 + now)) := by
  intro fuel
  induction fuel with
  | zero => intro daysBack; rfl
  | succ fuel ih =>
    intro daysBack
    by_cases h : daysBack < t ∧ 0 < c
    · simp only [generateDateRangesAux, if_pos h, List.map_cons, ih]
      refine congrArg₂ _ ?_ rfl
      refine congrArg₂ _ ?_ ?_ <;> omega
    · simp only [generateDateRangesAux, if_neg h, List.map_nil]

theorem generateDateRanges_translate (now : ℤ) :
    generateDateRanges 365 7 now = ranges0.map (fun w => (w.1 + now, w.2 + now)) :=
  generateDateRangesAux_translate now 365 7 365 0

theorem chainStepsB_map_shift (c : ℤ) :
    ∀ l : List (ℤ × ℤ),
      chainStepsB (l.map (fun w => (w.1 + c, w.2 + c))) = chainStepsB l
  | [] => rfl
  | [_] => rfl
  | a :: b :: t => by
    have hbeq : ((b.2 + c == a.1 + c) : Bool) = (b.2 == a.1) := by
      rw [Bool.eq_iff_iff]
      simp only [beq_iff_eq]
      omega
    calc chainStepsB ((a :: b :: t).map (fun w => (w.1 + c, w.2 + c)))
        = ((b.2 + c == a.1 + c) &&
            chainStepsB ((b :: t).map (fun w => (w.1 + c, w.2 + c)))) := rfl
      _ = ((b.2 == a.1) &&
            chainStepsB ((b :: t).map (fun w => (w.1 + c, w.2 + c)))) := by
          rw [hbeq]
      _ = ((b.2 == a.1) && chainStepsB (b :: t)) := by
          rw [chainStepsB_map_shift c (b :: t)]

set_option maxRecDepth 100000 in
/-- Every half-open day in the 365-day range behind day 0 is covered by
exactly one window of `ranges0`. -/
theorem ranges0_cover_one (j : ℕ) (hj : j < 365) :
    ranges0.countP (fun w => inWindowAfterStart w (-(j : ℤ))) = 1 := by
  have hall : (List.range 365).all
      (fun j => ranges0.countP (fun w => inWindowAfterStart w (-(j : ℤ))) == 1) = true := by
    decide
  have := List.all_eq_true.mp hall j (List.mem_range.mpr hj)
  simpa using this

/-- All windows of `ranges0` lie between day -365 and day 0. -/
theorem ranges0_bounds :
    ∀ w ∈ ranges0, -365 ≤ w.1 ∧ w.2 ≤ 0 := by
  have hall : ranges0.all (fun w => decide (-365 ≤ w.1) && decide (w.2 ≤ 0)) = true := by
    decide
  intro w hw
  have := List.all_eq_true.mp hall w hw
  simp only [Bool.and_eq_true, decide_eq_true_eq] at this
  exact this

theorem ranges0_countP_afterStart (d : ℤ) :
    ranges0.countP (fun w => inWindowAfterStart w d) =
      if -365 < d ∧ d ≤ 0 then 1 else 0 := by
  by_cases h : -365 < d ∧ d ≤ 0
  · rw [if_pos h]
    have hd : d = -(((-d).toNat : ℤ)) := by
      rw [Int.toNat_of_nonneg (by omega)]; omega
    rw [hd]
    exact ranges0_cover_one (-d).toNat (by omega)
  · rw [if_neg h]
    rw [List.countP_eq_zero]
    intro w hw
    have hb := ranges0_bounds w hw
    simp only [inWindowAfterStart, decide_eq_true_eq]
    omega

/-- C3 amended: the windows of `generateDateRanges(365, 7)` chain exactly —
each window's start date is the next (older) window's end date — so read as
half-open ranges `(start, end]` (the days strictly after the start date up
to and including the end date) they are pairwise non-overlapping,
contiguous, and cover each of the 365 days ending today exactly once; read
as the inclusive date ranges the GitHub query uses, adjacent windows share
exactly their boundary date and the union spans 366 distinct dates. -/
theorem generateWindows_amended (now day : ℤ) :
    chainStepsB (generateDateRanges 365 7 now) = true ∧
    (generateDateRanges 365 7 now).countP (fun w => inWindowAfterStart w day) =
      (if now - 365 < day ∧ day ≤ now then 1 else 0) := by
  constructor
  · rw [generateDateRanges_translate, chainStepsB_map_shift]
    decide
  · rw [generateDateRanges_translate, List.countP_map]
    have hp : ((fun w => inWindowAfterStart w day) ∘
        (fun w : ℤ × ℤ => (w.1 + now, w.2 + now))) =
        fun w => inWindowAfterStart w (day - now) := by
      funext w
      simp only [Function.comp_apply, inWindowAfterStart]
      rw [Bool.eq_iff_iff]
      simp only [decide_eq_true_eq]
      omega
    rw [hp, ranges0_countP_afterStart]
    by_cases h : now - 365 < day ∧ day ≤ now
    · rw [if_pos h, if_pos (by omega)]
    · rw [if_neg h, if_neg (by omega)]

/-! ### C6: the 1000-result data-loss flag -/

/-- C6 is false on the code: a window whose source-reported result count is
exactly 1000 — the cap itself — is not flagged, because `fetchGitHubRange`
computes `hitLimit: totalCount > 1000` with a strict comparison. -/
theorem fetch_hitLimit_at_cap_cex :
    (fetchGitHubRange cexResponses 0).totalCount = 1000 ∧
    (fetchGitHubRange cexResponses 0).hitLimit = false := by
  exact ⟨rfl, rfl⟩

/-- C6 amended: the window is flagged as having hit the limit exactly when
the source-reported `total_count` of the first page strictly exceeds 1000;
at `totalCount = 1000` the flag stays false. -/
theorem fetch_hitLimit_iff_strictly_over (responses : ℕ → GHResponse)
    (minStars : ℤ) :
    ((fetchGitHubRange responses minStars).hitLimit = true ↔
      1000 < (fetchGitHubRange responses minStars).totalCount) ∧
    (fetchGitHubRange responses minStars).totalCount =
      (responses 1).total_count := by
  refine ⟨?_, rfl⟩
  simp [fetchGitHubRange]

/-! ### C8: retry discipline of the LLM client -/

/-- C8 confirmed: when every attempt of a call fails with a transient error
(retryable and not a 429 rate limit — timeouts, resets, 5xx, overload), the
loop waits `RETRY_DELAY_MS × attemptNumber` after each of the first four
failures, performs exactly `MAX_RETRIES = 5` attempts, and surfaces the
error of the fifth attempt to the caller. -/
theorem llm_transient_linear_backoff (f : ℕ → Except LLMError String)
    (e : ℕ → LLMError)
    (herr : ∀ k, 1 ≤ k → k ≤ 5 → f k = .error (e k))
    (htrans : ∀ k, 1 ≤ k → k ≤ 5 →
      isRetryableError (e k) = true ∧ (e k).status ≠ some 429) :
    callOpenAIWithRetry f =
      (.error (e 5), [RETRY_DELAY_MS * 1, RETRY_DELAY_MS * 2,
        RETRY_DELAY_MS * 3, RETRY_DELAY_MS * 4]) := by
  have hh : ∀ k, 1 ≤ k → k ≤ 5 →
      handleRetry (e k) k = .ok (RETRY_DELAY_MS * (k : ℤ)) := by
    intro k h1 h5
    have h429 : ((e k).status == some 429) = false := by
      rw [beq_eq_false_iff_ne]
      exact (htrans k h1 h5).2
    simp [handleRetry, h429, (htrans k h1 h5).1]
  have hstep : ∀ (k fuel : ℕ) (waits : List ℤ), 1 ≤ k → k ≤ 4 →
      callWithRetryAux f k (fuel + 1) waits =
        callWithRetryAux f (k + 1) fuel (waits ++ [RETRY_DELAY_MS * (k : ℤ)]) := by
    intro k fuel waits h1 h4
    conv_lhs => rw [callWithRetryAux]
    rw [herr k h1 (by omega)]
    show (if k = MAX_RETRIES then ((Except.error (e k) : Except LLMError String), waits)
      else match handleRetry (e k) k with
        | .error e2 => (.error e2, waits)
        | .ok w => callWithRetryAux f (k + 1) fuel (waits ++ [w])) = _
    rw [if_neg (show ¬ k = MAX_RETRIES by rw [MAX_RETRIES]; omega),
      hh k h1 (by omega)]
  calc callOpenAIWithRetry f
      = callWithRetryAux f 1 (4 + 1) [] := rfl
    _ = callWithRetryAux f 2 (3 + 1) ([] ++ [RETRY_DELAY_MS * 1]) :=
        hstep 1 4 [] (by omega) (by omega)
    _ = callWithRetryAux f 3 (2 + 1)
          (([] ++ [RETRY_DELAY_MS * 1]) ++ [RETRY_DELAY_MS * 2]) :=
        hstep 2 3 _ (by omega) (by omega)
    _ = callWithRetryAux f 4 (1 + 1)
          ((([] ++ [RETRY_DELAY_MS * 1]) ++ [RETRY_DELAY_MS * 2]) ++
            [RETRY_DELAY_MS * 3]) :=
        hstep 3 2 _ (by omega) (by omega)
    _ = callWithRetryAux f 5 (0 + 1)
          (((([] ++ [RETRY_DELAY_MS * 1]) ++ [RETRY_DELAY_MS * 2]) ++
            [RETRY_DELAY_MS * 3]) ++ [RETRY_DELAY_MS * 4]) :=
        hstep 4 1 _ (by omega) (by omega)
    _ = (.error (e 5), [RETRY_DELAY_MS * 1, RETRY_DELAY_MS * 2,
          RETRY_DELAY_MS * 3, RETRY_DELAY_MS * 4]) := by
        conv_lhs => rw [callWithRetryAux]
        rw [herr 5 (by omega) (by omega)]
        show (if (5 : ℕ) = MAX_RETRIES
          then ((Except.error (e 5) : Except LLMError String), _)
          else _) = _
        rw [if_pos (show (5 : ℕ) = MAX_RETRIES from rfl)]
        rfl

/-- Concrete instantiation of `llm_transient_linear_backoff`: five
consecutive 503 timeouts produce waits of 1s, 2s, 3s, 4s and surface the
final error. -/
theorem llm_transient_linear_backoff_witness :
    (∀ k, 1 ≤ k → k ≤ 5 → wOutcomes k = .error wTransientErr) ∧
    (∀ k, 1 ≤ k → k ≤ 5 →
      isRetryableError wTransientErr = true ∧
        wTransientErr.status ≠ some 429) ∧
    callOpenAIWithRetry wOutcomes =
      (.error wTransientErr, [RETRY_DELAY_MS * 1, RETRY_DELAY_MS * 2,
        RETRY_DELAY_MS * 3, RETRY_DELAY_MS * 4]) :=
  ⟨fun _ _ _ => rfl,
    fun _ _ _ => ⟨by decide, by decide⟩,
    llm_transient_linear_backoff wOutcomes (fun _ => wTransientErr)
      (fun _ _ _ => rfl)
      (fun _ _ _ =>
        ⟨show isRetryableError wTransientErr = true by decide,
          show wTransientErr.status ≠ some 429 by decide⟩)⟩

/-! ### C9: error path of the orchestrator -/

/-- C9 under the code as written: when stage 1 throws, the run aborts the
remaining stages (no later stage event appears) and terminates with exit
code 1 — but `posts.close()` never runs, because `process.exit(1)` inside
the catch block terminates the process before the pending finally clause.
The claim's required `storeClosed` event is absent from the trace. -/
theorem pipeline_error_skips_close :
    runPipeline failingStages [] =
      ([PEvent.stageRun 1, PEvent.exitCalled 1], .exited 1) ∧
    PEvent.storeClosed ∉ [PEvent.stageRun 1, PEvent.exitCalled 1] := by
  exact ⟨rfl, by decide⟩

/-! ### C10: a zero or unparsable --step value runs every stage -/

/-- C10 confirmed: when the first `--step=` argument's value parses to 0 or
to NaN, `stepOnly` is falsy, so `shouldRun` answers true for every stage
and the pipeline behaves as if the flag were absent. -/
theorem step_zero_or_nan_runs_all (args : List String) (a : String)
    (hfind : args.find? (fun x => jsStartsWith x "--step=") = some a)
    (hval : jsParseInt ((jsSplitChar '=' a).getD 1 "") = .int 0 ∨
      jsParseInt ((jsSplitChar '=' a).getD 1 "") = .nan) :
    jsTruthyNum (parseArgs args).stepOnly = false ∧
      ∀ step, shouldRun step (parseArgs args) = true := by
  have hstep : (parseArgs args).stepOnly =
      some (jsParseInt ((jsSplitChar '=' a).getD 1 "")) := by
    unfold parseArgs
    rw [hfind]
    cases args.find? (fun x => jsStartsWith x "--days=") <;>
      cases args.find? (fun x => jsStartsWith x "--sources=") <;> rfl
  have hfalsy : jsTruthyNum (parseArgs args).stepOnly = false := by
    rcases hval with h | h <;> rw [hstep, h] <;> rfl
  refine ⟨hfalsy, fun step => ?_⟩
  rw [shouldRun, hfalsy]
  rfl

/-- Concrete instantiation of `step_zero_or_nan_runs_all` at
`--step=0`, discharging its hypotheses. -/
theorem step_zero_or_nan_runs_all_witness :
    (["--step=0"].find? (fun x => jsStartsWith x "--step=") = some "--step=0") ∧
    (jsParseInt ((jsSplitChar '=' "--step=0").getD 1 "") = .int 0 ∨
      jsParseInt ((jsSplitChar '=' "--step=0").getD 1 "") = .nan) ∧
    (jsTruthyNum (parseArgs ["--step=0"]).stepOnly = false ∧
      ∀ step, shouldRun step (parseArgs ["--step=0"]) = true) :=
  ⟨by decide, Or.inl (by decide),
    step_zero_or_nan_runs_all ["--step=0"] "--step=0" (by decide)
      (Or.inl (by decide))⟩

end GitHitArchive
